import Mathlib

/-!
Verification of the MVCCP protocol implementation (Capstone repository).

Each section is a shallow embedding of one part of the source tree:

* `Messages` — the wire codec of `src/src/messages/messages.py`
  (`MessageHeader`, `TLV`, `MVCCPMessage.encode` / `MVCCPMessage.decode`).
* `LayerB` — the PA flooding handler of `src/src/protocol/layer_b/handler.py`
  (deduplication cache, provider-table updates, MPR forwarding).
* `LayerA` — attribute validation of
  `src/src/protocol/layer_a/neighbor_table.py` with the static range table of
  `src/src/protocol/config.py`.
* `EdgeModel` — the wireless-charging edge of `src/src/core/edge.py`.
* `PlatoonModel` — the backwards Dijkstra of `src/src/core/platoon.py`.
* `LayerC` — the provider selection of
  `src/src/protocol/layer_c/efficiency_calc.py`.

Python floats are modelled as exact rationals (`ℚ`), byte strings as
`List Nat` with values below 256 where the codec guards ranges.
-/

namespace Messages

/-- A byte is modelled as a `Nat` (the codec guards the `< 256` ranges). -/
abbrev Byte := Nat

/-- The TLV object of `src/src/messages/messages.py` (`class TLV`): a type tag
and a value byte string.  The Python `length` attribute always equals
`len(value)` and is therefore not a separate field. -/
structure TLV where
  type : Nat
  value : List Byte
deriving Repr, DecidableEq

/-- Model of `TLV.pack`: `struct.pack("!BB", type, len(value)) + value`.  `none` models
the explicit `ValueError` when `len(value) > 255` and the `struct.error` when
the type does not fit one byte. -/
def TLV.pack (t : TLV) : Option (List Byte) :=
  if 255 < t.value.length then none
  else if 256 ≤ t.type then none
  else some ([t.type, t.value.length] ++ t.value)

/-- The errors raised along the decode path, one constructor per distinct
`ValueError` message in the source: buffer shorter than the 15-byte header,
data too short for a TLV header, data too short for a declared TLV value. -/
inductive DecodeError where
  | shortHeader
  | shortTLVHeader
  | shortTLVValue
deriving Repr, DecidableEq

/-- Model of `TLV.unpack_from(data, offset)`: reads `type = data[offset]`,
`length = data[offset+1]` and `value = data[offset+2 : offset+2+length]`,
raising when the buffer is too short for the TLV header or for the declared
value length. -/
def TLV.unpackFrom (data : List Byte) (offset : Nat) : Except DecodeError TLV :=
  if data.length < offset + 2 then .error .shortTLVHeader
  else
    let t := data.getD offset 0
    let l := data.getD (offset + 1) 0
    if data.length < offset + 2 + l then .error .shortTLVValue
    else .ok ⟨t, (data.drop (offset + 2)).take l⟩

/-- The TLV loop of `MVCCPMessage.decode`:
`while offset < len(payload): tlv = TLV.unpack_from(payload, offset); ...;
offset += 2 + tlv.length`. -/
def parseTLVs (payload : List Byte) (offset : Nat) : Except DecodeError (List TLV) :=
  if _h : offset < payload.length then
    match TLV.unpackFrom payload offset with
    | .error e => .error e
    | .ok tlv =>
      match parseTLVs payload (offset + (2 + tlv.value.length)) with
      | .error e => .error e
      | .ok rest => .ok (tlv :: rest)
  else .ok []
termination_by payload.length - offset
decreasing_by simp_wf; omega

theorem parseTLVs_stop (payload : List Byte) (offset : Nat)
    (h : ¬ offset < payload.length) : parseTLVs payload offset = .ok [] := by
  rw [parseTLVs]; simp [h]

theorem parseTLVs_step (payload : List Byte) (offset : Nat)
    (h : offset < payload.length) :
    parseTLVs payload offset =
      match TLV.unpackFrom payload offset with
      | .error e => .error e
      | .ok tlv =>
        match parseTLVs payload (offset + (2 + tlv.value.length)) with
        | .error e => .error e
        | .ok rest => .ok (tlv :: rest) := by
  rw [parseTLVs]; simp [h]

/-- The fixed message header of `class MessageHeader`, wire format `!HBI6sH`
(big-endian: u16 msg_type, u8 ttl, u32 seq_num, 6-byte sender_id,
u16 payload_len). -/
structure MessageHeader where
  msg_type : Nat
  ttl : Nat
  seq_num : Nat
  sender_id : List Byte
  payload_len : Nat
deriving Repr, DecidableEq

/-- Model of `MessageHeader.SIZE = struct.calcsize("!HBI6sH") = 15`. -/
def headerSize : Nat := 15

/-- Big-endian u16 encoding (`!H`), defined for `n < 2^16`. -/
def toBytes2 (n : Nat) : List Byte := [n / 256, n % 256]

/-- Big-endian u32 encoding (`!I`), defined for `n < 2^32`. -/
def toBytes4 (n : Nat) : List Byte :=
  [n / 2 ^ 24, n / 2 ^ 16 % 256, n / 2 ^ 8 % 256, n % 256]

/-- Model of `struct` `6s` semantics: truncate to six bytes, pad with zero bytes. -/
def pack6s (s : List Byte) : List Byte := s.take 6 ++ List.replicate (6 - s.length) 0

/-- Model of `MessageHeader.pack`: `struct.pack("!HBI6sH", ...)`; `none` models the
`struct.error` raised when a field exceeds its fixed-width range. -/
def MessageHeader.pack (h : MessageHeader) : Option (List Byte) :=
  if 2 ^ 16 ≤ h.msg_type then none
  else if 2 ^ 8 ≤ h.ttl then none
  else if 2 ^ 32 ≤ h.seq_num then none
  else if 2 ^ 16 ≤ h.payload_len then none
  else some (toBytes2 h.msg_type ++ [h.ttl] ++ toBytes4 h.seq_num ++
    pack6s h.sender_id ++ toBytes2 h.payload_len)

/-- Big-endian u16 decoding. -/
def fromBytes2 (b0 b1 : Nat) : Nat := b0 * 256 + b1

/-- Big-endian u32 decoding. -/
def fromBytes4 (b0 b1 b2 b3 : Nat) : Nat := ((b0 * 256 + b1) * 256 + b2) * 256 + b3

/-- Model of `MessageHeader.unpack`: `struct.unpack("!HBI6sH", data)` on a 15-byte
buffer (the caller `decode` always passes `data[:15]`). -/
def MessageHeader.unpack (data : List Byte) : MessageHeader where
  msg_type := fromBytes2 (data.getD 0 0) (data.getD 1 0)
  ttl := data.getD 2 0
  seq_num := fromBytes4 (data.getD 3 0) (data.getD 4 0) (data.getD 5 0) (data.getD 6 0)
  sender_id := (data.drop 7).take 6
  payload_len := fromBytes2 (data.getD 13 0) (data.getD 14 0)

/-- The message classes of `_MESSAGE_TYPE_MAP`; `generic` is the plain
`MVCCPMessage` fallback used for unknown message types. -/
inductive MsgClass where
  | hello | pa | joinOffer | joinAccept | ack | ackack
  | platoonBeacon | platoonStatus | gridStatus | platoonAnnounce
  | generic
deriving Repr, DecidableEq

/-- Model of `_MESSAGE_TYPE_MAP.get(msg_type, MVCCPMessage)`: the ten defined message
types map to their subclasses, everything else to the generic base class. -/
def msgClassOf (t : Nat) : MsgClass :=
  if t = 1 then .hello else if t = 2 then .pa
  else if t = 3 then .joinOffer else if t = 4 then .joinAccept
  else if t = 5 then .ack else if t = 6 then .ackack
  else if t = 7 then .platoonBeacon else if t = 8 then .platoonStatus
  else if t = 9 then .gridStatus else if t = 10 then .platoonAnnounce
  else .generic

/-- The result of `MVCCPMessage.decode`: the instantiated class, the header
object, and the parsed TLV list. -/
structure DecodedMessage where
  msgClass : MsgClass
  header : MessageHeader
  tlvs : List TLV
deriving Repr, DecidableEq

/-- Model of `MVCCPMessage.decode(data)`.  Note that the payload slice
`data[SIZE : SIZE + payload_len]` silently truncates at the end of the buffer:
there is no check of the declared `payload_len` against the remaining bytes. -/
def MVCCPMessage.decode (data : List Byte) : Except DecodeError DecodedMessage :=
  if data.length < headerSize then .error .shortHeader
  else
    let header := MessageHeader.unpack (data.take headerSize)
    let payload := (data.drop headerSize).take header.payload_len
    match parseTLVs payload 0 with
    | .error e => .error e
    | .ok tlvs => .ok ⟨msgClassOf header.msg_type, header, tlvs⟩

/-- A message on the encode side: header fields plus the TLV list added by
`add_tlv`.  The running `payload_len` bookkeeping of `add_tlv` is not a field
because `encode` recomputes it (`self.header.payload_len = len(payload)`). -/
structure MVCCPMessage where
  msg_type : Nat
  ttl : Nat
  seq_num : Nat
  sender_id : List Byte
  tlvs : List TLV
deriving Repr, DecidableEq

/-- Model of `b"".join(tlv.pack() for tlv in self.tlvs)`. -/
def packTLVs : List TLV → Option (List Byte)
  | [] => some []
  | t :: ts => do
    let h ← t.pack
    let rest ← packTLVs ts
    pure (h ++ rest)

/-- The payload length produced by the packed TLV list: the same value the
`add_tlv` bookkeeping accumulates (`2 + len(value)` per TLV). -/
def payloadLen (tlvs : List TLV) : Nat :=
  tlvs.foldr (fun t acc => (2 + t.value.length) + acc) 0

/-- Model of `MVCCPMessage.encode`: pack all TLVs, set `header.payload_len` to the
actual payload length, return `header.pack() + payload`. -/
def MVCCPMessage.encode (m : MVCCPMessage) : Option (List Byte) := do
  let payload ← packTLVs m.tlvs
  let hdr ← MessageHeader.pack ⟨m.msg_type, m.ttl, m.seq_num, m.sender_id, payload.length⟩
  pure (hdr ++ payload)

/-! Helper lemmas for the codec proofs. -/

theorem getD_append_add (pre l : List Byte) (k d : Nat) :
    (pre ++ l).getD (pre.length + k) d = l.getD k d := by
  induction pre with
  | nil => simp
  | cons x xs ih =>
    have h : xs.length + 1 + k = (xs.length + k) + 1 := by omega
    simp only [List.cons_append, List.length_cons, h, List.getD_cons_succ]
    exact ih

theorem packTLVs_some (tlvs : List TLV)
    (hwf : ∀ t ∈ tlvs, t.value.length ≤ 255 ∧ t.type < 256) :
    ∃ pl, packTLVs tlvs = some pl ∧ pl.length = payloadLen tlvs := by
  induction tlvs with
  | nil => exact ⟨[], rfl, rfl⟩
  | cons t ts ih =>
    obtain ⟨hv, ht⟩ := hwf t (by simp)
    obtain ⟨pl, hpl, hlen⟩ := ih (fun x hx => hwf x (by simp [hx]))
    refine ⟨[t.type, t.value.length] ++ t.value ++ pl, ?_, ?_⟩
    · simp only [packTLVs, TLV.pack, hpl]
      rw [if_neg (by omega), if_neg (by omega)]
      simp
    · simp [payloadLen, hlen, payloadLen] at *
      omega

theorem parseTLVs_packTLVs (tlvs : List TLV) (pl pre : List Byte)
    (hwf : ∀ t ∈ tlvs, t.value.length ≤ 255 ∧ t.type < 256)
    (hpack : packTLVs tlvs = some pl) :
    parseTLVs (pre ++ pl) pre.length = .ok tlvs := by
  induction tlvs generalizing pre pl with
  | nil =>
    simp only [packTLVs, Option.some.injEq] at hpack
    subst hpack
    exact parseTLVs_stop _ _ (by simp)
  | cons t ts ih =>
    obtain ⟨hv, htt⟩ := hwf t (by simp)
    simp only [packTLVs, TLV.pack, bind, Option.bind] at hpack
    rw [if_neg (by omega), if_neg (by omega)] at hpack
    rcases hrest : packTLVs ts with _ | rest
    · simp [hrest] at hpack
    · simp only [hrest, pure, Option.some.injEq] at hpack
      subst hpack
      have hofs : pre.length < (pre ++ ([t.type, t.value.length] ++ t.value ++ rest)).length := by
        simp only [List.length_append, List.length_cons, List.length_nil]; omega
      rw [parseTLVs_step _ _ hofs]
      have hunp : TLV.unpackFrom (pre ++ ([t.type, t.value.length] ++ t.value ++ rest))
          pre.length = .ok t := by
        rw [TLV.unpackFrom]
        rw [if_neg (by simp only [List.length_append, List.length_cons, List.length_nil]; omega)]
        have h0 : (pre ++ ([t.type, t.value.length] ++ t.value ++ rest)).getD
            (pre.length + 0) 0 = t.type := by
          rw [getD_append_add]; rfl
        have h1 : (pre ++ ([t.type, t.value.length] ++ t.value ++ rest)).getD
            (pre.length + 1) 0 = t.value.length := by
          rw [getD_append_add]; rfl
        simp only [Nat.add_zero] at h0
        simp only [h0, h1]
        rw [if_neg (by simp only [List.length_append, List.length_cons, List.length_nil]; omega)]
        have hdrop : (pre ++ ([t.type, t.value.length] ++ t.value ++ rest)).drop
            (pre.length + 2) = t.value ++ rest := by
          have : pre ++ ([t.type, t.value.length] ++ t.value ++ rest) =
              (pre ++ [t.type, t.value.length]) ++ (t.value ++ rest) := by simp
          rw [this]
          have hl : (pre ++ [t.type, t.value.length]).length = pre.length + 2 := by simp
          rw [← hl, List.drop_left]
        rw [hdrop, List.take_left]
      have hrec : parseTLVs (pre ++ ([t.type, t.value.length] ++ t.value ++ rest))
          (pre.length + (2 + t.value.length)) = .ok ts := by
        have hre : pre ++ ([t.type, t.value.length] ++ t.value ++ rest) =
            (pre ++ [t.type, t.value.length] ++ t.value) ++ rest := by simp
        have hlen : (pre ++ [t.type, t.value.length] ++ t.value).length =
            pre.length + (2 + t.value.length) := by
          simp only [List.length_append, List.length_cons, List.length_nil]; omega
        rw [hre, ← hlen]
        exact ih _ _ (fun x hx => hwf x (by simp [hx])) hrest
      simp only [hunp, hrec]

theorem exists_six {α : Type} (s : List α) (h : s.length = 6) :
    ∃ a b c d e f, s = [a, b, c, d, e, f] := by
  rcases s with _ | ⟨a, s⟩; · simp at h
  rcases s with _ | ⟨b, s⟩; · simp at h
  rcases s with _ | ⟨c, s⟩; · simp at h
  rcases s with _ | ⟨d, s⟩; · simp at h
  rcases s with _ | ⟨e, s⟩; · simp at h
  rcases s with _ | ⟨f, s⟩; · simp at h
  rcases s with _ | ⟨g, s⟩
  · exact ⟨a, b, c, d, e, f, rfl⟩
  · simp at h

theorem unpack_explicit (b0 b1 b2 b3 b4 b5 b6 b7 b8 b9 b10 b11 b12 b13 b14 : Byte) :
    MessageHeader.unpack [b0, b1, b2, b3, b4, b5, b6, b7, b8, b9, b10, b11, b12, b13, b14] =
      ⟨fromBytes2 b0 b1, b2, fromBytes4 b3 b4 b5 b6, [b7, b8, b9, b10, b11, b12],
        fromBytes2 b13 b14⟩ := rfl

theorem header_roundtrip (h : MessageHeader) (hs : h.sender_id.length = 6)
    (h1 : h.msg_type < 2 ^ 16) (h2 : h.ttl < 2 ^ 8) (h3 : h.seq_num < 2 ^ 32)
    (h4 : h.payload_len < 2 ^ 16) :
    ∃ bytes, h.pack = some bytes ∧ bytes.length = headerSize ∧
      MessageHeader.unpack bytes = h := by
  obtain ⟨t, ttlv, sq, sid, pl⟩ := h
  simp only at h1 h2 h3 h4
  obtain ⟨a, b, c, d, e, f, rfl⟩ := exists_six sid hs
  refine ⟨toBytes2 t ++ [ttlv] ++ toBytes4 sq ++ pack6s [a, b, c, d, e, f] ++
    toBytes2 pl, ?_, ?_, ?_⟩
  · simp only [MessageHeader.pack]
    rw [if_neg (by omega), if_neg (by omega), if_neg (by omega), if_neg (by omega)]
  · simp [toBytes2, toBytes4, pack6s, headerSize]
  · have hb : toBytes2 t ++ [ttlv] ++ toBytes4 sq ++ pack6s [a, b, c, d, e, f] ++
        toBytes2 pl =
        [t / 256, t % 256, ttlv, sq / 2 ^ 24, sq / 2 ^ 16 % 256, sq / 2 ^ 8 % 256,
          sq % 256, a, b, c, d, e, f, pl / 256, pl % 256] := by
      simp [toBytes2, toBytes4, pack6s]
    rw [hb, unpack_explicit]
    simp only [MessageHeader.mk.injEq, fromBytes2, fromBytes4]
    refine ⟨by omega, trivial, by omega, trivial, by omega⟩

/-- Claim C2: for every well-formed message M (sender_id exactly 6 bytes,
msg_type < 2^16, ttl < 2^8, seq_num < 2^32, every TLV one-byte-typed with
value at most 255 bytes, total payload at most 65535 bytes),
`decode(encode(M))` equals M: all header fields are reproduced exactly
(`payload_len` being the actual payload length) and the TLV list is preserved
with the same types, values and order. -/
theorem C2_codec_roundtrip (m : MVCCPMessage)
    (hs : m.sender_id.length = 6) (ht : m.msg_type < 2 ^ 16) (httl : m.ttl < 2 ^ 8)
    (hsq : m.seq_num < 2 ^ 32)
    (htlv : ∀ t ∈ m.tlvs, t.value.length ≤ 255 ∧ t.type < 256)
    (hp : payloadLen m.tlvs ≤ 65535) :
    m.encode.map MVCCPMessage.decode =
      some (.ok ⟨msgClassOf m.msg_type,
        ⟨m.msg_type, m.ttl, m.seq_num, m.sender_id, payloadLen m.tlvs⟩, m.tlvs⟩) := by
  obtain ⟨pl, hpl, hlen⟩ := packTLVs_some m.tlvs htlv
  obtain ⟨bytes, hbytes, hblen, hunp⟩ := header_roundtrip
    ⟨m.msg_type, m.ttl, m.seq_num, m.sender_id, pl.length⟩ hs ht httl hsq
    (by simp only []; omega)
  have henc : m.encode = some (bytes ++ pl) := by
    simp only [MVCCPMessage.encode, bind, hpl, Option.some_bind, hbytes, pure]
  have h15 : ¬ (bytes ++ pl).length < headerSize := by
    simp only [List.length_append, hblen]; omega
  have htk : (bytes ++ pl).take headerSize = bytes := by rw [← hblen, List.take_left]
  have hdr : (bytes ++ pl).drop headerSize = pl := by rw [← hblen, List.drop_left]
  have hparse : parseTLVs pl 0 = .ok m.tlvs := by
    have h := parseTLVs_packTLVs m.tlvs pl [] htlv hpl
    simpa using h
  have hdec : MVCCPMessage.decode (bytes ++ pl) =
      .ok ⟨msgClassOf m.msg_type,
        ⟨m.msg_type, m.ttl, m.seq_num, m.sender_id, payloadLen m.tlvs⟩, m.tlvs⟩ := by
    simp only [MVCCPMessage.decode]
    rw [if_neg h15, htk, hdr, hunp]
    simp only [List.take_length]
    simp only [hparse]
    simp only [hlen]
  rw [henc, Option.map_some', hdec]

/-- A concrete buffer whose header declares `payload_len = 10` while only four
bytes remain after the 15-byte header; those four bytes form one complete TLV
(type 5, length 2, value 7 8). -/
def overrunBuf : List Byte := [0, 1, 0, 0, 0, 0, 0, 0, 0, 0, 0, 0, 0, 0, 10, 5, 2, 7, 8]

/-- Claim C3 counterexample: on `overrunBuf` the declared `payload_len` (10)
exceeds the remaining bytes (4), yet `decode` does not fail with any error —
it silently truncates the payload to the available bytes and returns a decoded
message, contradicting the claim that such packets are dropped with a distinct
decode error. -/
theorem C3_counterexample :
    (MessageHeader.unpack (overrunBuf.take headerSize)).payload_len = 10 ∧
    overrunBuf.length - headerSize = 4 ∧
    MVCCPMessage.decode overrunBuf =
      .ok ⟨.hello, ⟨1, 0, 0, [0, 0, 0, 0, 0, 0], 10⟩, [⟨5, [7, 8]⟩]⟩ := by
  refine ⟨by decide, by decide, ?_⟩
  have hstep : parseTLVs [5, 2, 7, 8] 0 = .ok [⟨5, [7, 8]⟩] := by
    rw [parseTLVs_step _ _ (by decide)]
    have hu : TLV.unpackFrom [5, 2, 7, 8] 0 = .ok ⟨5, [7, 8]⟩ := rfl
    have hs4 : parseTLVs [5, 2, 7, 8] (0 + (2 + List.length [7, 8])) = .ok [] :=
      parseTLVs_stop _ _ (by decide)
    simp only [hu, hs4]
  have hpay : ((overrunBuf.drop headerSize).take
      (MessageHeader.unpack (overrunBuf.take headerSize)).payload_len) = [5, 2, 7, 8] := by
    decide
  simp only [MVCCPMessage.decode]
  rw [if_neg (by decide), hpay, hstep]
  rfl

/-- Claim C3 (amended): `decode` never checks the declared `payload_len`
against the remaining buffer.  When the declared length exceeds the remaining
bytes the payload is silently truncated to whatever bytes remain and TLV
parsing proceeds on the truncated payload: `decode` succeeds exactly when the
truncated payload parses as a TLV sequence, and otherwise reports only a TLV
error — no distinct payload-length error exists and no packet is dropped for
over-declaring its length. -/
theorem C3_amended_truncation (data : List Byte) (h15 : headerSize ≤ data.length)
    (hover : data.length - headerSize <
      (MessageHeader.unpack (data.take headerSize)).payload_len) :
    MVCCPMessage.decode data = (parseTLVs (data.drop headerSize) 0).map
      (fun tlvs => ⟨msgClassOf (MessageHeader.unpack (data.take headerSize)).msg_type,
        MessageHeader.unpack (data.take headerSize), tlvs⟩) := by
  have h1 : ¬ data.length < headerSize := by omega
  have hpay : (data.drop headerSize).take
      (MessageHeader.unpack (data.take headerSize)).payload_len = data.drop headerSize := by
    apply List.take_of_length_le
    simp only [List.length_drop]; omega
  simp only [MVCCPMessage.decode]
  rw [if_neg h1, hpay]
  rcases hp : parseTLVs (data.drop headerSize) 0 with e | tlvs <;> simp [Except.map]

theorem C3_amended_truncation_witness :
    MVCCPMessage.decode overrunBuf = (parseTLVs (overrunBuf.drop headerSize) 0).map
      (fun tlvs => ⟨msgClassOf (MessageHeader.unpack (overrunBuf.take headerSize)).msg_type,
        MessageHeader.unpack (overrunBuf.take headerSize), tlvs⟩) :=
  C3_amended_truncation overrunBuf (by decide) (by decide)

theorem msgClassOf_not_defined (t : Nat)
    (h : t ∉ ([1, 2, 3, 4, 5, 6, 7, 8, 9, 10] : List Nat)) :
    msgClassOf t = .generic := by
  simp only [List.mem_cons, not_or] at h
  obtain ⟨h1, h2, h3, h4, h5, h6, h7, h8, h9, h10, _⟩ := h
  simp [msgClassOf, h1, h2, h3, h4, h5, h6, h7, h8, h9, h10]

/-- Claim C10: for every buffer whose header parses and whose TLVs parse,
if the header's msg_type is not one of the ten defined message types, decode
still succeeds: it returns a generic message object carrying the header fields
and all TLVs; unknown message types are tolerated rather than rejected. -/
theorem C10_unknown_type_tolerated (data : List Byte) (h15 : headerSize ≤ data.length)
    (tlvs : List TLV)
    (hparse : parseTLVs ((data.drop headerSize).take
      (MessageHeader.unpack (data.take headerSize)).payload_len) 0 = .ok tlvs)
    (hunk : (MessageHeader.unpack (data.take headerSize)).msg_type ∉
      ([1, 2, 3, 4, 5, 6, 7, 8, 9, 10] : List Nat)) :
    MVCCPMessage.decode data =
      .ok ⟨.generic, MessageHeader.unpack (data.take headerSize), tlvs⟩ := by
  have h1 : ¬ data.length < headerSize := by omega
  simp only [MVCCPMessage.decode]
  rw [if_neg h1]
  simp only [hparse, msgClassOf_not_defined _ hunk]

/-- A buffer with unknown msg_type 99 and an empty payload. -/
def unknownBuf : List Byte := [0, 99, 0, 0, 0, 0, 0, 0, 0, 0, 0, 0, 0, 0, 0]

theorem C10_unknown_type_tolerated_witness :
    MVCCPMessage.decode unknownBuf =
      .ok ⟨.generic, MessageHeader.unpack (unknownBuf.take headerSize), []⟩ :=
  C10_unknown_type_tolerated unknownBuf (by decide) []
    (parseTLVs_stop _ _ (by decide)) (by decide)

/-- A concrete well-formed PA message for the C2 witness. -/
def witMsg : MVCCPMessage :=
  ⟨2, 4, 7, [0, 0, 0, 0, 0, 2], [⟨10, [1, 2, 3]⟩, ⟨11, [2]⟩]⟩

theorem C2_codec_roundtrip_witness :
    witMsg.encode.map MVCCPMessage.decode =
      some (.ok ⟨msgClassOf witMsg.msg_type,
        ⟨witMsg.msg_type, witMsg.ttl, witMsg.seq_num, witMsg.sender_id,
          payloadLen witMsg.tlvs⟩, witMsg.tlvs⟩) :=
  C2_codec_roundtrip witMsg (by decide) (by decide) (by decide) (by decide)
    (by decide) (by decide)

end Messages

namespace LayerB

/-- The fields of a received PA that `ProviderAnnouncementHandler.handle_pa`
(`src/src/protocol/layer_b/handler.py`) inspects for control flow:
`sender_id` (the originator under the Option A contract), `seq_num`, `ttl`,
the PROVIDER_ID TLV if present, and the PREVIOUS_HOP TLV if present.  The
other TLVs are deserialized into the info dict passed to `update_provider`;
they never influence which state transitions happen, so the message value
itself stands for them in the update log. -/
structure PAMessage where
  sender_id : List Nat
  seq_num : Nat
  ttl : Nat
  provider_id : Option (List Nat)
  prev_hop : Option (List Nat)
deriving Repr, DecidableEq

/-- The deduplication key `(message.header.sender_id, message.header.seq_num)`. -/
def paKey (m : PAMessage) : List Nat × Nat := (m.sender_id, m.seq_num)

/-- Handler state: the keys of the `seen_messages` dict in insertion order
(the stored timestamps never influence behaviour), the sequence of
`provider_table.update_provider` calls, the sequence of re-broadcasts issued
by `_forward_pa`, the node's `mpr_selector_set` and its own id.  The PA
receive-rate counter of `_update_pa_counter` is time-based telemetry that
touches no decision in `handle_pa` and is not modelled. -/
structure BState where
  seen : List (List Nat × Nat)
  tableUpdates : List (List Nat × PAMessage)
  forwards : List PAMessage
  mprSelectorSet : List (List Nat)
  nodeId : List Nat
deriving Repr, DecidableEq

/-- Model of `handle_pa`: drop when the key is seen; otherwise record the key, update
the provider table when a PROVIDER_ID TLV is present, and, when `ttl > 0` and
the previous hop (PREVIOUS_HOP TLV, falling back to the originator) is in the
MPR selector set, re-broadcast via `_forward_pa` (TTL decremented,
PREVIOUS_HOP overwritten with the own node id). -/
def handlePA (s : BState) (m : PAMessage) : BState :=
  if paKey m ∈ s.seen then s
  else
    let s1 := { s with seen := s.seen ++ [paKey m] }
    let s2 := match m.provider_id with
      | some pid => { s1 with tableUpdates := s1.tableUpdates ++ [(pid, m)] }
      | none => s1
    if 0 < m.ttl then
      if m.prev_hop.getD m.sender_id ∈ s.mprSelectorSet then
        { s2 with forwards := s2.forwards ++
            [{ m with ttl := m.ttl - 1, prev_hop := some s.nodeId }] }
      else s2
    else s2

/-- A sequence of PA receive events at one node, delivered in order. -/
def runPA (s : BState) (msgs : List PAMessage) : BState := msgs.foldl handlePA s

theorem handlePA_of_seen (s : BState) (m : PAMessage) (h : paKey m ∈ s.seen) :
    handlePA s m = s := by
  simp [handlePA, h]

theorem handlePA_seen_of_not_seen (s : BState) (m : PAMessage)
    (h : paKey m ∉ s.seen) : (handlePA s m).seen = s.seen ++ [paKey m] := by
  rcases hp : m.provider_id with _ | pid <;>
    simp only [handlePA, if_neg h, hp] <;>
    by_cases ht : 0 < m.ttl <;>
    simp only [ht, if_true, if_false, reduceIte] <;>
    split <;> rfl

theorem handlePA_seen_cases (s : BState) (m : PAMessage) :
    (handlePA s m).seen = s.seen ∨ (handlePA s m).seen = s.seen ++ [paKey m] := by
  by_cases h : paKey m ∈ s.seen
  · left; rw [handlePA_of_seen s m h]
  · right; exact handlePA_seen_of_not_seen s m h

theorem handlePA_key_seen (s : BState) (m : PAMessage) :
    paKey m ∈ (handlePA s m).seen := by
  by_cases h : paKey m ∈ s.seen
  · rw [handlePA_of_seen s m h]; exact h
  · rw [handlePA_seen_of_not_seen s m h]; simp

theorem handlePA_seen_superset (s : BState) (m : PAMessage) (k : List Nat × Nat)
    (h : k ∈ s.seen) : k ∈ (handlePA s m).seen := by
  rcases handlePA_seen_cases s m with hc | hc <;> rw [hc] <;> simp [h]

theorem runPA_seen_superset (msgs : List PAMessage) (s : BState) (k : List Nat × Nat)
    (h : k ∈ s.seen) : k ∈ (runPA s msgs).seen := by
  induction msgs generalizing s with
  | nil => exact h
  | cons m rest ih => exact ih (handlePA s m) (handlePA_seen_superset s m k h)

/-- Claim C4: for every sequence of PA receive events at one node, among all
events sharing the same (originator sender_id, seq_num) key only the first one
updates the ProviderTable or triggers MPR forwarding; every subsequent event
with a seen key is dropped before any table update and before any
re-broadcast — processing it leaves the handler state (table-update log,
forward log, dedup cache) exactly unchanged. -/
theorem C4_dedup_single_delivery (init : BState) (pre mid : List PAMessage)
    (m1 m2 : PAMessage) (hkey : paKey m1 = paKey m2) :
    runPA init (pre ++ [m1] ++ mid ++ [m2]) = runPA init (pre ++ [m1] ++ mid) := by
  have h1 : paKey m1 ∈ (runPA init (pre ++ [m1])).seen := by
    rw [runPA, List.foldl_append]
    exact handlePA_key_seen _ _
  have h2 : paKey m2 ∈ (runPA init (pre ++ [m1] ++ mid)).seen := by
    rw [← hkey, runPA, List.foldl_append]
    exact runPA_seen_superset mid _ _ h1
  calc runPA init (pre ++ [m1] ++ mid ++ [m2])
      = handlePA (runPA init (pre ++ [m1] ++ mid)) m2 := by
        rw [runPA, List.foldl_append]; rfl
    _ = runPA init (pre ++ [m1] ++ mid) := handlePA_of_seen _ _ h2

/-- The S6 replay scenario: two PAs with identical key (sender 02, seq 7);
the second differs in content, which must not matter. -/
def paFirst : PAMessage := ⟨[0, 0, 0, 0, 0, 2], 7, 3, some [0, 0, 0, 0, 0, 2], none⟩

/-- The replayed PA of the S6 scenario (same dedup key as `paFirst`). -/
def paReplay : PAMessage := ⟨[0, 0, 0, 0, 0, 2], 7, 5, some [0, 0, 0, 0, 0, 9], none⟩

/-- The initial handler state: empty caches and logs. -/
def initB : BState := ⟨[], [], [], [[0, 0, 0, 0, 0, 2]], [0, 0, 0, 0, 0, 7]⟩

theorem C4_dedup_single_delivery_witness :
    runPA initB ([] ++ [paFirst] ++ [] ++ [paReplay]) =
      runPA initB ([] ++ [paFirst] ++ []) :=
  C4_dedup_single_delivery initB [] [] paFirst paReplay rfl

/-- Model of `ProtocolConfig.MAX_SEEN_MESSAGES` (`src/src/protocol/config.py`): the
documented cap on the `seen_messages` cache, "prevents memory exhaustion".
The constant is defined but never consulted by any handler code. -/
def MAX_SEEN_MESSAGES : Nat := 10000

/-- PAs from a single originator with increasing sequence numbers; their
deduplication keys are pairwise distinct. -/
def mkPA (n : Nat) : PAMessage := ⟨[0, 0, 0, 0, 0, 1], n, 0, none, none⟩

theorem handlePA_seen_len_fresh (s : BState) (m : PAMessage)
    (h : paKey m ∉ s.seen) :
    (handlePA s m).seen.length = s.seen.length + 1 := by
  rw [handlePA_seen_of_not_seen s m h]; simp

theorem runPA_seen_member (msgs : List PAMessage) (s : BState) (k : List Nat × Nat)
    (h : k ∈ (runPA s msgs).seen) : k ∈ s.seen ∨ k ∈ msgs.map paKey := by
  induction msgs generalizing s with
  | nil => exact .inl h
  | cons m rest ih =>
    rcases ih (handlePA s m) h with hin | hin
    · rcases handlePA_seen_cases s m with hc | hc <;> rw [hc] at hin
      · exact .inl hin
      · rcases List.mem_append.mp hin with h' | h'
        · exact .inl h'
        · right; simp at h'; simp [h']
    · right; simp [hin]

theorem runPA_seen_len_range (N : Nat) (s : BState)
    (h : ∀ n, paKey (mkPA n) ∉ s.seen) :
    (runPA s ((List.range N).map mkPA)).seen.length = s.seen.length + N := by
  induction N with
  | zero => simp [runPA]
  | succ k ih =>
    have hsplit : (List.range (k + 1)).map mkPA =
        (List.range k).map mkPA ++ [mkPA k] := by
      rw [List.range_succ, List.map_append]; rfl
    have hfresh : paKey (mkPA k) ∉ (runPA s ((List.range k).map mkPA)).seen := by
      intro hmem
      rcases runPA_seen_member _ _ _ hmem with hin | hin
      · exact h k hin
      · simp only [List.map_map, List.mem_map] at hin
        obtain ⟨n, hn, heq⟩ := hin
        have : n = k := by
          have := congrArg Prod.snd heq
          simpa [mkPA, paKey] using this
        rw [this] at hn
        exact absurd (List.mem_range.mp hn) (lt_irrefl k)
    rw [hsplit, runPA, List.foldl_append]
    have : (List.foldl handlePA s ((List.range k).map mkPA)) =
        runPA s ((List.range k).map mkPA) := rfl
    rw [this]
    simp only [List.foldl_cons, List.foldl_nil]
    rw [handlePA_seen_len_fresh _ _ hfresh, ih]
    omega

/-- Claim C5 states that the Layer-B seen-message map never holds more than
MAX_SEEN_MESSAGES (10000) entries, the oldest being evicted on overflow.  The
code never evicts: delivering 10001 PAs with pairwise distinct keys leaves
10001 entries in the cache, exceeding the cap.  (`MAX_SEEN_MESSAGES` is
defined in `ProtocolConfig` with the comment "prevents memory exhaustion" but
is referenced nowhere else.) -/
theorem C5_seen_cache_unbounded :
    (runPA initB ((List.range (MAX_SEEN_MESSAGES + 1)).map mkPA)).seen.length =
      MAX_SEEN_MESSAGES + 1 ∧
    MAX_SEEN_MESSAGES <
      (runPA initB ((List.range (MAX_SEEN_MESSAGES + 1)).map mkPA)).seen.length := by
  have h := runPA_seen_len_range (MAX_SEEN_MESSAGES + 1) initB
    (fun n => by simp [initB])
  constructor
  · rw [h]; rfl
  · rw [h]; simp [initB]

end LayerB

namespace LayerA

/-- The numeric node attributes accepted by `NeighborTable.update_neighbor`
(`src/src/protocol/layer_a/neighbor_table.py`), i.e. the whitelist
`ProtocolConfig.ALLOWED_NODE_ATTRS`.  Keys outside the whitelist and values of
the wrong type are filtered out by `_validate_attrs` before the logic modelled
here runs, so only whitelisted numeric attributes appear.  (`velocity` may
also be a tuple in Python; it has no range entry, so modelling its scalar form
does not change validation behaviour.) -/
inductive AttrKey where
  | batteryCapacity | batteryEnergy | minEnergy | rateIn | rateOut
  | latitude | longitude | velocity | batteryHealth
  | etx | delay | willingness | laneWeight | linkStability
deriving Repr, DecidableEq

/-- Model of `ProtocolConfig.ATTR_RANGES` (`src/src/protocol/config.py`): per-key
(min, max) bounds, `none` inside the pair meaning unbounded, outer `none`
meaning the key has no range entry at all. -/
def attrRange : AttrKey → Option (Option ℚ × Option ℚ)
  | .batteryCapacity => some (some (1 / 10), none)
  | .batteryEnergy => some (some 0, none)
  | .minEnergy => some (some 0, none)
  | .rateIn => some (some 0, none)
  | .rateOut => some (some 0, none)
  | .etx => some (some 1, none)
  | .delay => some (some 0, none)
  | .willingness => some (some 0, some 7)
  | .laneWeight => some (some 0, some 1)
  | .linkStability => some (some 0, some 1)
  | .batteryHealth => some (some 0, some 1)
  | .latitude => none
  | .longitude => none
  | .velocity => none

/-- Model of `NeighborTable._validate_range`: keys without a range entry are always
valid; otherwise reject below the minimum or above the maximum.  The source
comment claims the battery_energy-vs-capacity bound "is checked dynamically
during update, not here"; no such dynamic check exists in `update_neighbor`. -/
def validateRange (k : AttrKey) (v : ℚ) : Bool :=
  match attrRange k with
  | none => true
  | some (mn, mx) =>
    let minBad := match mn with | some m => decide (v < m) | none => false
    let maxBad := match mx with | some m => decide (m < v) | none => false
    !minBad && !maxBad

/-- The range-checking pass of `NeighborTable._validate_attrs`: attributes
failing validation are dropped, the rest kept in order. -/
def validateAttrs (attrs : List (AttrKey × ℚ)) : List (AttrKey × ℚ) :=
  attrs.filter (fun kv => validateRange kv.1 kv.2)

/-- The attribute fields of `src/src/core/node.py: Node` that
`update_neighbor` can set on a neighbor entry. -/
structure NNode where
  battery_capacity_kwh : ℚ
  battery_energy_kwh : ℚ
  min_energy_kwh : ℚ
  max_transfer_rate_in : ℚ
  max_transfer_rate_out : ℚ
  latitude : ℚ
  longitude : ℚ
  velocity : ℚ
  battery_health : ℚ
  etx : ℚ
  delay : ℚ
  willingness : ℚ
  lane_weight : ℚ
  link_stability : ℚ
deriving Repr, DecidableEq

/-- Model of `setattr(node, key, val)` for each whitelisted attribute (all exist on
`Node`, so the `hasattr` guard always passes). -/
def setAttr (n : NNode) : AttrKey × ℚ → NNode
  | (.batteryCapacity, v) => { n with battery_capacity_kwh := v }
  | (.batteryEnergy, v) => { n with battery_energy_kwh := v }
  | (.minEnergy, v) => { n with min_energy_kwh := v }
  | (.rateIn, v) => { n with max_transfer_rate_in := v }
  | (.rateOut, v) => { n with max_transfer_rate_out := v }
  | (.latitude, v) => { n with latitude := v }
  | (.longitude, v) => { n with longitude := v }
  | (.velocity, v) => { n with velocity := v }
  | (.batteryHealth, v) => { n with battery_health := v }
  | (.etx, v) => { n with etx := v }
  | (.delay, v) => { n with delay := v }
  | (.willingness, v) => { n with willingness := v }
  | (.laneWeight, v) => { n with lane_weight := v }
  | (.linkStability, v) => { n with link_stability := v }

/-- The attribute-application loop of `update_neighbor` on an existing
neighbor entry: every attribute surviving `_validate_attrs` is applied
verbatim with `setattr` — no clamping and no comparison against the entry's
capacity. -/
def updateNeighbor (n : NNode) (attrs : List (AttrKey × ℚ)) : NNode :=
  (validateAttrs attrs).foldl setAttr n

/-- Model of `ProtocolConfig.NODE_DEFAULTS`: capacity 100, energy 50, min 10,
rates 50/50, health 1, etx 1, delay 0, willingness 3, lane weight 0.5,
stability 1, position and velocity 0. -/
def defaultNode : NNode := ⟨100, 50, 10, 50, 50, 0, 0, 0, 1, 1, 0, 3, 1 / 2, 1⟩

/-- Claim C9 asserts that an `update_neighbor` whose `battery_energy_kwh`
value exceeds the entry's `battery_capacity_kwh` is rejected by the range
validation.  The range table bounds `battery_energy_kwh` only from below
(`(0, None)`), so the oversized value passes validation and is applied: after
updating the default entry (capacity 100) with energy 150, the entry holds
energy 150 > capacity 100, violating the invariant current ∈ [0, capacity]. -/
theorem C9_battery_energy_exceeds_capacity :
    validateRange .batteryEnergy 150 = true ∧
    (updateNeighbor defaultNode [(.batteryEnergy, 150)]).battery_energy_kwh = 150 ∧
    (updateNeighbor defaultNode [(.batteryEnergy, 150)]).battery_capacity_kwh = 100 ∧
    ¬ (updateNeighbor defaultNode [(.batteryEnergy, 150)]).battery_energy_kwh ≤
      (updateNeighbor defaultNode [(.batteryEnergy, 150)]).battery_capacity_kwh := by
  refine ⟨by decide, ?_, ?_, ?_⟩ <;>
    norm_num [updateNeighbor, validateAttrs, validateRange, attrRange, setAttr,
      defaultNode, List.filter, List.foldl]

end LayerA

namespace EdgeModel

/-- Model of `ProtocolConfig.EDGE_EFFICIENCY_SCALE = 0.1`. -/
def EDGE_EFFICIENCY_SCALE : ℚ := 1 / 10

/-- Model of `ProtocolConfig.EDGE_MAX_RANGE_M = 10.0`. -/
def EDGE_MAX_RANGE_M : ℚ := 10

/-- Model of `ProtocolConfig.EDGE_MIN_EFFICIENCY = 0.1`. -/
def EDGE_MIN_EFFICIENCY : ℚ := 1 / 10

/-- Model of `Edge._calculate_hardware_efficiency` (`src/src/core/edge.py`):
zero when either rate is nonpositive, otherwise
`dest_in / max(source_out, dest_in)` clamped into [0, 1]. -/
def hardwareEfficiency (source_out dest_in : ℚ) : ℚ :=
  if source_out ≤ 0 ∨ dest_in ≤ 0 then 0
  else min (max (dest_in / max source_out dest_in) 0) 1

/-- Model of `Edge._calculate_distance_efficiency`: 1 at nonpositive distance, 0 beyond
the maximum range, otherwise the inverse-square value `1/(1 + SCALE·d²)`,
clamped to 0 when it falls below the minimum useful efficiency. -/
def distanceEfficiency (d : ℚ) : ℚ :=
  if d ≤ 0 then 1
  else if EDGE_MAX_RANGE_M < d then 0
  else
    let e := 1 / (1 + EDGE_EFFICIENCY_SCALE * d * d)
    if e < EDGE_MIN_EFFICIENCY then 0 else e

/-- Model of `self.transfer_efficiency = self.hardware_efficiency *
self.distance_efficiency`. -/
def transferEfficiency (source_out dest_in d : ℚ) : ℚ :=
  hardwareEfficiency source_out dest_in * distanceEfficiency d

/-- Model of `Edge.is_usable`: transfer efficiency at least `EDGE_MIN_EFFICIENCY`. -/
def isUsable (source_out dest_in d : ℚ) : Bool :=
  EDGE_MIN_EFFICIENCY ≤ transferEfficiency source_out dest_in d

/-- Claim C6 counterexample: with source max_out = 10 and destination
max_in = 20 the code computes dest_in / max(source_out, dest_in) = 1, while
the claimed symmetric formula min/max gives 1/2. -/
theorem C6_counterexample :
    hardwareEfficiency 10 20 = 1 ∧
    min (20 : ℚ) 10 / max (20 : ℚ) 10 = 1 / 2 ∧ (1 : ℚ) ≠ 1 / 2 := by
  norm_num [hardwareEfficiency]

/-- Claim C6 (amended): for positive rates the hardware efficiency equals
`dest_in / max(source_out, dest_in)`.  This agrees with the claimed
min/max formula when max_in ≤ max_out, but equals 1 — not max_out/max_in —
whenever max_in > max_out: the formula is not symmetric in the two rates. -/
theorem C6_amended_hardware_efficiency (so di : ℚ) (hso : 0 < so) (hdi : 0 < di) :
    hardwareEfficiency so di = di / max so di ∧
    (di ≤ so → hardwareEfficiency so di = min di so / max di so) ∧
    (so < di → hardwareEfficiency so di = 1) := by
  have hne : ¬ (so ≤ 0 ∨ di ≤ 0) := by push_neg; exact ⟨hso, hdi⟩
  have hpos : 0 < max so di := lt_max_of_lt_left hso
  have hle : di / max so di ≤ 1 := by
    rw [div_le_one hpos]; exact le_max_right so di
  have hge : (0 : ℚ) ≤ di / max so di := le_of_lt (div_pos hdi hpos)
  have hmain : hardwareEfficiency so di = di / max so di := by
    simp only [hardwareEfficiency, if_neg hne]
    rw [max_eq_left hge, min_eq_left hle]
  refine ⟨hmain, ?_, ?_⟩
  · intro h
    rw [hmain, min_eq_left h, max_comm di so]
  · intro h
    rw [hmain, max_eq_right (le_of_lt h), div_self (ne_of_gt hdi)]

theorem C6_amended_hardware_efficiency_witness :
    hardwareEfficiency 50 20 = 20 / max 50 20 ∧
    ((20 : ℚ) ≤ 50 → hardwareEfficiency 50 20 = min 20 50 / max 20 50) ∧
    ((50 : ℚ) < 20 → hardwareEfficiency 50 20 = 1) :=
  C6_amended_hardware_efficiency 50 20 (by norm_num) (by norm_num)

/-- Claim C7 counterexample: at d = 9.5 m (inside the claimed 0 < d ≤ 10
range) the inverse-square value is 40/401 ≈ 0.0997, which is below
EDGE_MIN_EFFICIENCY = 0.1, so the code clamps the distance efficiency to 0
instead of returning 1/(1 + 0.1·d²) as claimed. -/
theorem C7_counterexample :
    ((0 : ℚ) < 19 / 2 ∧ (19 / 2 : ℚ) ≤ 10) ∧
    distanceEfficiency (19 / 2) = 0 ∧
    (1 / (1 + (1 / 10) * (19 / 2) * (19 / 2)) : ℚ) = 40 / 401 ∧
    (40 / 401 : ℚ) ≠ 0 := by
  norm_num [distanceEfficiency, EDGE_MAX_RANGE_M, EDGE_EFFICIENCY_SCALE,
    EDGE_MIN_EFFICIENCY]

/-- Claim C7 (amended): for 0 < d ≤ 10 the distance efficiency equals
`1/(1 + 0.1·d²)` unless that value falls below EDGE_MIN_EFFICIENCY = 0.1
(which happens for d² > 90), in which case it is clamped to 0; and for
d > 10 m the distance efficiency is 0, the transfer efficiency is 0 and
`is_usable()` is false. -/
theorem C7_amended_distance_efficiency (so di d : ℚ) (hd : 0 < d) :
    (d ≤ 10 → distanceEfficiency d =
      (if 1 / (1 + (1 / 10) * d * d) < 1 / 10 then 0
        else 1 / (1 + (1 / 10) * d * d))) ∧
    (10 < d → distanceEfficiency d = 0 ∧ transferEfficiency so di d = 0 ∧
      isUsable so di d = false) := by
  constructor
  · intro h10
    simp only [distanceEfficiency, EDGE_MAX_RANGE_M, EDGE_EFFICIENCY_SCALE,
      EDGE_MIN_EFFICIENCY, if_neg (not_le.mpr hd), if_neg (not_lt.mpr h10)]
  · intro h10
    have h1 : distanceEfficiency d = 0 := by
      simp only [distanceEfficiency, EDGE_MAX_RANGE_M,
        if_neg (not_le.mpr hd), if_pos h10]
    refine ⟨h1, ?_, ?_⟩
    · rw [transferEfficiency, h1, mul_zero]
    · simp only [isUsable, transferEfficiency, h1, mul_zero, EDGE_MIN_EFFICIENCY]
      norm_num

theorem C7_amended_distance_efficiency_witness :
    ((3 : ℚ) ≤ 10 → distanceEfficiency 3 =
      (if (1 / (1 + (1 / 10) * 3 * 3) : ℚ) < 1 / 10 then 0
        else 1 / (1 + (1 / 10) * 3 * 3))) ∧
    ((10 : ℚ) < 3 → distanceEfficiency 3 = 0 ∧ transferEfficiency 50 50 3 = 0 ∧
      isUsable 50 50 3 = false) :=
  C7_amended_distance_efficiency 50 50 3 (by norm_num)

end EdgeModel

namespace PlatoonModel

/-- Python list comparison on byte-id lists (`list1 < list2`): elementwise
lexicographic, a strict prefix being smaller. -/
def natListLT : List Nat → List Nat → Bool
  | _, [] => false
  | [], _ :: _ => true
  | a :: as, b :: bs => if a < b then true else if b < a then false else natListLT as bs

theorem natListLT_irrefl : ∀ l : List Nat, natListLT l l = false
  | [] => rfl
  | a :: as => by simp [natListLT, natListLT_irrefl as]

theorem natListLT_cons_iff (a b : Nat) (as bs : List Nat) :
    natListLT (a :: as) (b :: bs) = true ↔
      a < b ∨ (a = b ∧ natListLT as bs = true) := by
  simp only [natListLT]
  by_cases h1 : a < b
  · simp [h1]
  · by_cases h2 : b < a
    · simp [h1, h2]; omega
    · have h3 : a = b := by omega
      simp [h1, h2, h3]

theorem natListLT_trans : ∀ a b c : List Nat,
    natListLT a b = true → natListLT b c = true → natListLT a c = true
  | _, [], _, hab, _ => by simp [natListLT] at hab
  | [], _ :: _, [], _, hbc => by simp [natListLT] at hbc
  | [], _ :: _, _ :: _, _, _ => rfl
  | _ :: _, _ :: _, [], _, hbc => by simp [natListLT] at hbc
  | a :: as, b :: bs, c :: cs, hab, hbc => by
    rw [natListLT_cons_iff] at hab hbc ⊢
    rcases hab with h1 | ⟨rfl, h1⟩
    · rcases hbc with h2 | ⟨rfl, h2⟩
      · exact .inl (h1.trans h2)
      · exact .inl h1
    · rcases hbc with h2 | ⟨rfl, h2⟩
      · exact .inl h2
      · exact .inr ⟨rfl, natListLT_trans as bs cs h1 h2⟩

theorem natListLT_trichotomy : ∀ a b : List Nat,
    natListLT a b = true ∨ natListLT b a = true ∨ a = b
  | [], [] => .inr (.inr rfl)
  | [], _ :: _ => .inl rfl
  | _ :: _, [] => .inr (.inl rfl)
  | a :: as, b :: bs => by
    rcases Nat.lt_trichotomy a b with h | rfl | h
    · exact .inl ((natListLT_cons_iff _ _ _ _).mpr (.inl h))
    · rcases natListLT_trichotomy as bs with h' | h' | h'
      · exact .inl ((natListLT_cons_iff _ _ _ _).mpr (.inr ⟨rfl, h'⟩))
      · exact .inr (.inl ((natListLT_cons_iff _ _ _ _).mpr (.inr ⟨rfl, h'⟩)))
      · exact .inr (.inr (by rw [h']))
    · exact .inr (.inl ((natListLT_cons_iff _ _ _ _).mpr (.inl h)))

/-- One entry of the priority queue of `Platoon._dijkstra_to_sources`
(`src/src/core/platoon.py`): the tuple
`(cost, node_id, path, cumulative_efficiency)` pushed onto the heap.  Node
ids are 6-byte strings; for ids of equal length Python byte-string comparison
coincides with the numeric order of their big-endian value, so ids are
modelled as `Nat`. -/
structure HeapEntry where
  cost : ℚ
  node : Nat
  path : List Nat
  eff : ℚ
deriving Repr, DecidableEq

/-- Python tuple comparison on heap entries, the order `heapq` pops by:
lexicographic over (cost, node_id, path, cumulative_efficiency). -/
def entryLTP (x y : HeapEntry) : Prop :=
  x.cost < y.cost ∨ (x.cost = y.cost ∧
    (x.node < y.node ∨ (x.node = y.node ∧
      (natListLT x.path y.path = true ∨ (x.path = y.path ∧ x.eff < y.eff)))))

instance (x y : HeapEntry) : Decidable (entryLTP x y) := by
  unfold entryLTP; infer_instance

/-- Boolean form of the heap-entry order used by the executable model. -/
def entryLT (x y : HeapEntry) : Bool := decide (entryLTP x y)

theorem entryLTP_irrefl (x : HeapEntry) : ¬ entryLTP x x := by
  rintro (h | ⟨-, h | ⟨-, h | ⟨-, h⟩⟩⟩)
  · exact lt_irrefl _ h
  · exact lt_irrefl _ h
  · simp [natListLT_irrefl] at h
  · exact lt_irrefl _ h

theorem entryLTP_trans {x y z : HeapEntry} (hxy : entryLTP x y)
    (hyz : entryLTP y z) : entryLTP x z := by
  rcases hxy with h1 | ⟨e1, h1⟩ <;> rcases hyz with h2 | ⟨e2, h2⟩
  · exact .inl (h1.trans h2)
  · exact .inl (e2 ▸ h1)
  · exact .inl (e1 ▸ h2)
  · right
    refine ⟨e1.trans e2, ?_⟩
    rcases h1 with h1 | ⟨f1, h1⟩ <;> rcases h2 with h2 | ⟨f2, h2⟩
    · exact .inl (h1.trans h2)
    · exact .inl (f2 ▸ h1)
    · exact .inl (f1 ▸ h2)
    · right
      refine ⟨f1.trans f2, ?_⟩
      rcases h1 with h1 | ⟨g1, h1⟩ <;> rcases h2 with h2 | ⟨g2, h2⟩
      · exact .inl (natListLT_trans _ _ _ h1 h2)
      · exact .inl (g2 ▸ h1)
      · exact .inl (g1 ▸ h2)
      · exact .inr ⟨g1.trans g2, h1.trans h2⟩

theorem entryLTP_trichotomy (x y : HeapEntry) :
    entryLTP x y ∨ entryLTP y x ∨ x = y := by
  rcases lt_trichotomy x.cost y.cost with h | h | h
  · exact .inl (.inl h)
  · rcases lt_trichotomy x.node y.node with h' | h' | h'
    · exact .inl (.inr ⟨h, .inl h'⟩)
    · rcases natListLT_trichotomy x.path y.path with hp | hp | hp
      · exact .inl (.inr ⟨h, .inr ⟨h', .inl hp⟩⟩)
      · exact .inr (.inl (.inr ⟨h.symm, .inr ⟨h'.symm, .inl hp⟩⟩))
      · rcases lt_trichotomy x.eff y.eff with he | he | he
        · exact .inl (.inr ⟨h, .inr ⟨h', .inr ⟨hp, he⟩⟩⟩)
        · right; right
          cases x; cases y
          simp only at h h' hp he
          simp [h, h', hp, he]
        · exact .inr (.inl (.inr ⟨h.symm, .inr ⟨h'.symm, .inr ⟨hp.symm, he⟩⟩⟩))
    · exact .inr (.inl (.inr ⟨h.symm, .inl h'⟩))
  · exact .inr (.inl (.inl h))

/-- The running minimum used to model `heapq.heappop`: the smallest entry of
the heap under the tuple order. -/
def findMinFold (acc : HeapEntry) : List HeapEntry → HeapEntry
  | [] => acc
  | e :: rest => findMinFold (if entryLT e acc then e else acc) rest

theorem findMinFold_mem (l : List HeapEntry) : ∀ acc : HeapEntry,
    findMinFold acc l = acc ∨ findMinFold acc l ∈ l := by
  induction l with
  | nil => intro acc; exact .inl rfl
  | cons e rest ih =>
    intro acc
    simp only [findMinFold]
    rcases ih (if entryLT e acc then e else acc) with h | h
    · rw [h]; split
      · right; exact List.mem_cons_self _ _
      · left; rfl
    · right; exact List.mem_cons_of_mem _ h

theorem findMinFold_min (l : List HeapEntry) : ∀ (acc x : HeapEntry),
    (x = acc ∨ x ∈ l) → ¬ entryLTP x (findMinFold acc l) := by
  induction l with
  | nil =>
    rintro acc x (rfl | h)
    · exact entryLTP_irrefl x
    · cases h
  | cons e rest ih =>
    rintro acc x hx
    simp only [findMinFold]
    have hpair : ¬ entryLTP acc (findMinFold (if entryLT e acc then e else acc) rest) ∧
        ¬ entryLTP e (findMinFold (if entryLT e acc then e else acc) rest) := by
      by_cases hc : entryLT e acc = true
      · rw [if_pos hc]
        have he : ¬ entryLTP e (findMinFold e rest) := ih e e (.inl rfl)
        have hEA : entryLTP e acc := of_decide_eq_true hc
        exact ⟨fun hAcc => he (entryLTP_trans hEA hAcc), he⟩
      · rw [if_neg hc]
        have ha : ¬ entryLTP acc (findMinFold acc rest) := ih acc acc (.inl rfl)
        have hNEA : ¬ entryLTP e acc := fun h => hc (decide_eq_true h)
        refine ⟨ha, fun hE => ?_⟩
        rcases entryLTP_trichotomy acc (findMinFold acc rest) with h1 | h1 | h1
        · exact ha h1
        · exact hNEA (entryLTP_trans hE h1)
        · rw [← h1] at hE; exact hNEA hE
    rcases hx with rfl | hx
    · exact hpair.1
    · rcases List.mem_cons.mp hx with rfl | hx
      · exact hpair.2
      · exact ih _ x (.inr hx)

/-- Model of `heapq.heappop`: remove and return the smallest entry under the Python
tuple order. -/
def popMin : List HeapEntry → Option (HeapEntry × List HeapEntry)
  | [] => none
  | e :: rest => some (findMinFold e rest, (e :: rest).erase (findMinFold e rest))

/-- A directed edge of `Platoon.edge_graph`, keyed `(src_id, dst_id)` and
carrying the `Edge` fields read by `_dijkstra_to_sources`: `edge_cost`,
`transfer_efficiency` and the result of `is_usable()`. -/
structure EdgeRec where
  src : Nat
  dst : Nat
  cost : ℚ
  eff : ℚ
  usable : Bool
deriving Repr, DecidableEq

/-- The `while pq:` loop of `Platoon._dijkstra_to_sources`.  `fuel` bounds the
number of iterations (the Python loop terminates because `visited` grows);
`none` means the fuel ran out, `some r` that the loop returned `r`, where `r`
itself is `none` for the `(None, inf, 0.0)` exhausted-queue return and
`some (path, cost, deliverable)` for a found source.  `shareable` models
`get_member_by_id(...).shareable_energy()`, `none` standing for a missing
member (in which case the code falls through and keeps exploring). -/
def dijkstraLoop (graph : List EdgeRec) (sourceIds : List Nat)
    (shareable : Nat → Option ℚ) :
    Nat → List HeapEntry → List Nat → Option (Option (List Nat × ℚ × ℚ))
  | 0, _, _ => none
  | fuel + 1, pq, visited =>
    match popMin pq with
    | none => some none
    | some (e, rest) =>
      if e.node ∈ visited then dijkstraLoop graph sourceIds shareable fuel rest visited
      else
        let visited' := visited ++ [e.node]
        match (if e.node ∈ sourceIds then shareable e.node else none) with
        | some sh => some (some (e.path.reverse, e.cost, sh * e.eff))
        | none =>
          let pushes := (graph.filter (fun ed =>
            ed.dst == e.node && !(visited'.contains ed.src) && ed.usable)).map
            (fun ed => HeapEntry.mk (e.cost + ed.cost) ed.src
              (e.path ++ [ed.src]) (e.eff * ed.eff))
          dijkstraLoop graph sourceIds shareable fuel (rest ++ pushes) visited'

/-- Model of `Platoon._dijkstra_to_sources(target_id, source_ids)`: backwards Dijkstra
from the deficit node, starting from the queue `[(0.0, target_id,
[target_id], 1.0)]` and an empty visited set. -/
def dijkstraToSources (graph : List EdgeRec) (targetId : Nat)
    (sourceIds : List Nat) (shareable : Nat → Option ℚ) (fuel : Nat) :
    Option (Option (List Nat × ℚ × ℚ)) :=
  dijkstraLoop graph sourceIds shareable fuel [⟨0, targetId, [targetId], 1⟩] []

/-- Sum of edge costs along a node path (edges looked up by `(src, dst)`). -/
def routeCost (graph : List EdgeRec) : List Nat → ℚ
  | a :: b :: rest =>
    (match graph.find? (fun ed => ed.src == a && ed.dst == b) with
      | some ed => ed.cost
      | none => 0) + routeCost graph (b :: rest)
  | _ => 0

/-- Product of edge efficiencies along a node path. -/
def routeEff (graph : List EdgeRec) : List Nat → ℚ
  | a :: b :: rest =>
    (match graph.find? (fun ed => ed.src == a && ed.dst == b) with
      | some ed => ed.eff
      | none => 1) * routeEff graph (b :: rest)
  | _ => 1

/-- A four-node platoon: deficit target 0, intermediates 1 and 2, surplus
source 3.  All edge values are realizable by the `Edge` model: an edge at
distance 1 m with matched 50 kW rates has efficiency 10/11 and cost
0.4·(1/10) + 0.3·(1 − 10/11) = 37/550; an edge at distance 0 m with rates
165 kW out / 128 kW in has efficiency 128/165 and the same cost
0.3·(1 − 128/165) = 37/550. -/
def exGraph : List EdgeRec :=
  [⟨3, 1, 37 / 550, 10 / 11, true⟩,
   ⟨3, 2, 37 / 550, 10 / 11, true⟩,
   ⟨1, 0, 37 / 550, 128 / 165, true⟩,
   ⟨2, 0, 37 / 550, 10 / 11, true⟩]

/-- Source node 3 has 20 kWh shareable energy. -/
def exShareable : Nat → Option ℚ := fun n => if n = 3 then some 20 else none

unseal Rat.mul Rat.add Rat.inv in
theorem exGraph_run_eval :
    dijkstraToSources exGraph 0 [3] exShareable 10 =
      some (some ([3, 1, 0], 37 / 275, 20 * (256 / 363))) := by decide

/-- Claim C8 counterexample: in `exGraph` the two candidate paths from source
3 to target 0 have equal cumulative cost 37/275, the path through node 2
having the higher cumulative efficiency (100/121 > 256/363).  The code
nevertheless returns the path through node 1 — the equal-cost tie is broken by
the heap tuple (node id, then path), not by higher cumulative efficiency. -/
theorem C8_counterexample :
    dijkstraToSources exGraph 0 [3] exShareable 10 =
      some (some ([3, 1, 0], 37 / 275, 20 * (256 / 363))) ∧
    routeCost exGraph [3, 1, 0] = 37 / 275 ∧
    routeCost exGraph [3, 2, 0] = 37 / 275 ∧
    routeEff exGraph [3, 1, 0] = 256 / 363 ∧
    routeEff exGraph [3, 2, 0] = 100 / 121 ∧
    (256 / 363 : ℚ) < 100 / 121 := by
  refine ⟨exGraph_run_eval, ?_, ?_, ?_, ?_, by norm_num⟩ <;>
    norm_num [routeCost, routeEff, exGraph]

/-- Claim C8 (amended): path candidates in `_dijkstra_to_sources` are popped
in the Python tuple order on `(cost, node_id, path, cumulative_efficiency)`:
lower cumulative cost wins, and an equal-cost tie is broken by the smaller
node id, then the lexicographically smaller path, and only last by the
smaller (not higher) cumulative efficiency. -/
theorem C8_amended_pop_order (pq : List HeapEntry) (m : HeapEntry)
    (rest : List HeapEntry) (h : popMin pq = some (m, rest)) :
    ∀ x ∈ pq, m.cost ≤ x.cost ∧ ¬ entryLTP x m := by
  cases pq with
  | nil => simp [popMin] at h
  | cons e tail =>
    simp only [popMin, Option.some.injEq, Prod.mk.injEq] at h
    obtain ⟨hm, -⟩ := h
    intro x hx
    have hmin : ¬ entryLTP x m := by
      rw [← hm]
      refine findMinFold_min tail e x ?_
      rcases List.mem_cons.mp hx with rfl | hx'
      · exact .inl rfl
      · exact .inr hx'
    refine ⟨?_, hmin⟩
    by_contra hlt
    push_neg at hlt
    exact hmin (.inl hlt)

/-- The two equal-cost candidates of the counterexample run, as they sit in
the heap when the source is reached. -/
def exPQ : List HeapEntry :=
  [⟨37 / 275, 3, [0, 1, 3], 256 / 363⟩, ⟨37 / 275, 3, [0, 2, 3], 100 / 121⟩]

unseal Rat.mul Rat.add Rat.inv in
theorem C8_amended_pop_order_witness :
    (⟨37 / 275, 3, [0, 1, 3], 256 / 363⟩ : HeapEntry).cost ≤
      (⟨37 / 275, 3, [0, 2, 3], 100 / 121⟩ : HeapEntry).cost ∧
    ¬ entryLTP ⟨37 / 275, 3, [0, 2, 3], 100 / 121⟩
      ⟨37 / 275, 3, [0, 1, 3], 256 / 363⟩ :=
  C8_amended_pop_order exPQ ⟨37 / 275, 3, [0, 1, 3], 256 / 363⟩
    [⟨37 / 275, 3, [0, 2, 3], 100 / 121⟩] (by decide)
    ⟨37 / 275, 3, [0, 2, 3], 100 / 121⟩ (by decide)

end PlatoonModel

namespace LayerC

/-- Model of `ProtocolConfig.URGENCY_CRITICAL = 1.0`. -/
def URGENCY_CRITICAL : ℚ := 1

/-- Model of `ProtocolConfig.URGENCY_LOW = 1.2`. -/
def URGENCY_LOW : ℚ := 6 / 5

/-- Model of `ProtocolConfig.THRESHOLD_CRITICAL = 1.0`. -/
def THRESHOLD_CRITICAL : ℚ := 1

/-- Model of `ProtocolConfig.THRESHOLD_LOW = 0.50`. -/
def THRESHOLD_LOW : ℚ := 1 / 2

/-- Model of `ProtocolConfig.THRESHOLD_HEALTHY = 0.20`. -/
def THRESHOLD_HEALTHY : ℚ := 1 / 5

/-- Model of `ProtocolConfig.QUEUE_TIME_WEIGHT = 0.01` kWh per second of queue wait. -/
def QUEUE_TIME_WEIGHT : ℚ := 1 / 100

/-- Model of `EfficiencyCalculator.get_dynamic_threshold`
(`src/src/protocol/layer_c/efficiency_calc.py`) as a function of the urgency
ratio.  `calculate_urgency_ratio` itself is geometry over the node state and
route provider; its value enters as the `urgency` parameter everywhere. -/
def getDynamicThreshold (urgency : ℚ) : ℚ :=
  if urgency < URGENCY_CRITICAL then THRESHOLD_CRITICAL
  else if urgency < URGENCY_LOW then THRESHOLD_LOW
  else THRESHOLD_HEALTHY

/-- A provider as consumed by `evaluate_provider`: `providerCost` is the
result of `calculate_provider_cost` (energy to the provider plus energy from
the provider to the destination — route geometry, taken as data), `isRreh`
the `provider.is_rreh()` test, `queueTime` the advertised queue wait. -/
structure Provider where
  providerCost : ℚ
  isRreh : Bool
  queueTime : ℚ
deriving Repr, DecidableEq

/-- The fields of `ProviderEvaluation` that the selection logic reads.
`detourPct` is `none` where the Python code stores `float('inf')`
(`direct_cost = 0` with a positive detour). -/
structure Evaluation where
  providerCost : ℚ
  detourCost : ℚ
  detourPct : Option ℚ
  isRreh : Bool
  isRecommended : Bool
  queuePenalty : ℚ
  totalCost : ℚ
deriving Repr, DecidableEq

/-- Model of `EfficiencyCalculator.evaluate_provider`: detour cost, detour percentage
(with the division-by-zero guard), dynamic threshold, recommendation flag,
queue penalty for RREHs only, and `total_cost = detour_cost + queue_penalty`. -/
def evaluateProvider (directCost urgency : ℚ) (p : Provider) : Evaluation :=
  let detour := p.providerCost - directCost
  let pct : Option ℚ :=
    if 0 < directCost then some (detour / directCost)
    else if detour ≤ 0 then some 0 else none
  let thr := getDynamicThreshold urgency
  let isRec := p.isRreh && (match pct with
    | some q => decide (q ≤ thr)
    | none => false)
  let qt := if p.isRreh then p.queueTime else 0
  let qp := qt * QUEUE_TIME_WEIGHT
  { providerCost := p.providerCost
    detourCost := detour
    detourPct := pct
    isRreh := p.isRreh
    isRecommended := isRec
    queuePenalty := qp
    totalCost := detour + qp }

/-- Stable insertion used to model Python's stable `list.sort(key=...)`:
an element is inserted after every element not strictly greater under the key
order, so equal-key elements keep their original relative order. -/
def insertSorted (lt : Evaluation → Evaluation → Bool) (x : Evaluation) :
    List Evaluation → List Evaluation
  | [] => [x]
  | y :: ys => if lt y x then y :: insertSorted lt x ys else x :: y :: ys

/-- Stable sort (extensionally equal to Python's Timsort for any key). -/
def sortByKey (lt : Evaluation → Evaluation → Bool) :
    List Evaluation → List Evaluation
  | [] => []
  | x :: xs => insertSorted lt x (sortByKey lt xs)

/-- The sort key of `evaluate_all_providers`:
`(not e.is_recommended, e.total_cost)` compared as a Python tuple
(`False < True`, then the float). -/
def keyLT (a b : Evaluation) : Bool :=
  (a.isRecommended && !b.isRecommended) ||
    ((a.isRecommended == b.isRecommended) && decide (a.totalCost < b.totalCost))

/-- Model of `evaluate_all_providers`: evaluate every provider of the
capacity-filtered, `filter_func`-filtered list (modelled by the `providers`
input) and sort recommended-first, then by total cost. -/
def evaluateAllProviders (directCost urgency : ℚ)
    (providers : List Provider) : List Evaluation :=
  sortByKey keyLT (providers.map (evaluateProvider directCost urgency))

/-- The running minimum of Python's `min(xs, key=lambda e: e.total_cost)`:
strict-less replacement keeps the first element with minimal key. -/
def minFold (acc : Evaluation) : List Evaluation → Evaluation
  | [] => acc
  | x :: rest => minFold (if x.totalCost < acc.totalCost then x else acc) rest

/-- Model of `min(xs, key=lambda e: e.total_cost) if xs else None`. -/
def minByTotal : List Evaluation → Option Evaluation
  | [] => none
  | e :: rest => some (minFold e rest)

/-- Model of `EfficiencyCalculator.select_best_provider`: split the evaluations into
RREHs and platoons, take the best of each by total cost, return the only
present one, and otherwise apply the dynamic-threshold logic.  The source's
nested `if direct_cost > 0: if pct <= threshold: return best_rreh` is the
flat conjunction below (both fall through to the same continuation). -/
def selectBestProvider (directCost urgency : ℚ)
    (providers : List Provider) : Option Evaluation :=
  let evals := evaluateAllProviders directCost urgency providers
  if evals.isEmpty then none
  else
    let rrehs := evals.filter (fun e => e.isRreh)
    let platoons := evals.filter (fun e => !e.isRreh)
    match minByTotal rrehs, minByTotal platoons with
    | none, bp => bp
    | some br, none => some br
    | some br, some bp =>
      if 0 < directCost ∧ br.detourCost / directCost ≤ getDynamicThreshold urgency
        then some br
      else if bp.totalCost < br.totalCost then some bp
      else if urgency < URGENCY_CRITICAL then some bp
      else some br

theorem mem_insertSorted (lt : Evaluation → Evaluation → Bool) (x a : Evaluation) :
    ∀ l : List Evaluation, a ∈ insertSorted lt x l ↔ a = x ∨ a ∈ l := by
  intro l
  induction l with
  | nil => simp [insertSorted]
  | cons y ys ih =>
    simp only [insertSorted]
    split
    · simp only [List.mem_cons, ih]
      tauto
    · simp only [List.mem_cons]

theorem mem_sortByKey (lt : Evaluation → Evaluation → Bool) (a : Evaluation) :
    ∀ l : List Evaluation, a ∈ sortByKey lt l ↔ a ∈ l := by
  intro l
  induction l with
  | nil => simp [sortByKey]
  | cons x xs ih =>
    simp only [sortByKey, mem_insertSorted, ih, List.mem_cons]

theorem minFold_le (l : List Evaluation) : ∀ acc x : Evaluation,
    (x = acc ∨ x ∈ l) → (minFold acc l).totalCost ≤ x.totalCost := by
  induction l with
  | nil =>
    rintro acc x (rfl | hx)
    · exact le_refl _
    · cases hx
  | cons e rest ih =>
    rintro acc x hx
    simp only [minFold]
    have hle1 : (minFold (if e.totalCost < acc.totalCost then e else acc)
        rest).totalCost ≤ acc.totalCost := by
      by_cases hc : e.totalCost < acc.totalCost
      · rw [if_pos hc]
        exact (ih e e (.inl rfl)).trans (le_of_lt hc)
      · rw [if_neg hc]
        exact ih acc acc (.inl rfl)
    have hle2 : (minFold (if e.totalCost < acc.totalCost then e else acc)
        rest).totalCost ≤ e.totalCost := by
      by_cases hc : e.totalCost < acc.totalCost
      · rw [if_pos hc]
        exact ih e e (.inl rfl)
      · rw [if_neg hc]
        exact (ih acc acc (.inl rfl)).trans (not_lt.mp hc)
    rcases hx with hx | hx
    · rw [hx]; exact hle1
    · rcases List.mem_cons.mp hx with hx' | hx'
      · rw [hx']; exact hle2
      · exact ih _ x (.inr hx')

theorem minFold_mem (l : List Evaluation) : ∀ acc : Evaluation,
    minFold acc l = acc ∨ minFold acc l ∈ l := by
  induction l with
  | nil => intro acc; exact .inl rfl
  | cons e rest ih =>
    intro acc
    simp only [minFold]
    rcases ih (if e.totalCost < acc.totalCost then e else acc) with h | h
    · rw [h]; split
      · right; exact List.mem_cons_self _ _
      · left; rfl
    · right; exact List.mem_cons_of_mem _ h

theorem minByTotal_spec (l : List Evaluation) (m : Evaluation)
    (h : minByTotal l = some m) :
    m ∈ l ∧ ∀ x ∈ l, m.totalCost ≤ x.totalCost := by
  cases l with
  | nil => simp [minByTotal] at h
  | cons e rest =>
    simp only [minByTotal, Option.some.injEq] at h
    subst h
    constructor
    · rcases minFold_mem rest e with h | h
      · rw [h]; exact List.mem_cons_self _ _
      · exact List.mem_cons_of_mem _ h
    · intro x hx
      rcases List.mem_cons.mp hx with hx' | hx'
      · rw [hx']; exact minFold_le rest e e (.inl rfl)
      · exact minFold_le rest e x (.inr hx')

theorem minByTotal_isSome (l : List Evaluation) (h : l ≠ []) :
    ∃ m, minByTotal l = some m := by
  cases l with
  | nil => exact absurd rfl h
  | cons e rest => exact ⟨minFold e rest, rfl⟩

/-- Claim C1: for a consumer evaluating providers, when at least one
non-blacklisted RREH and at least one non-blacklisted platoon provider with
capacity exist (both present in the filtered provider list) and
direct_cost > 0, `select_best_provider` returns the RREH with lowest
total_cost (detour_cost + queue_penalty) if its detour percentage is at most
the dynamic threshold (1.0 when urgency < 1.0, 0.50 when 1.0 ≤ urgency < 1.2,
0.20 otherwise); otherwise the best platoon if its total_cost is strictly
less than the best RREH's; otherwise the best platoon if urgency < 1.0;
otherwise the best RREH. -/
theorem C1_select_best_provider (providers : List Provider) (dc urg : ℚ)
    (hdc : 0 < dc)
    (hr : ∃ p ∈ providers, p.isRreh = true)
    (hpl : ∃ p ∈ providers, p.isRreh = false) :
    ∃ br bp,
      minByTotal ((evaluateAllProviders dc urg providers).filter
        (fun e => e.isRreh)) = some br ∧
      minByTotal ((evaluateAllProviders dc urg providers).filter
        (fun e => !e.isRreh)) = some bp ∧
      br.isRreh = true ∧ bp.isRreh = false ∧
      (∀ e ∈ evaluateAllProviders dc urg providers, e.isRreh = true →
        br.totalCost ≤ e.totalCost) ∧
      (∀ e ∈ evaluateAllProviders dc urg providers, e.isRreh = false →
        bp.totalCost ≤ e.totalCost) ∧
      selectBestProvider dc urg providers =
        (if br.detourCost / dc ≤
            (if urg < 1 then 1 else if urg < 6 / 5 then 1 / 2 else 1 / 5)
          then some br
          else if bp.totalCost < br.totalCost then some bp
          else if urg < 1 then some bp
          else some br) := by
  obtain ⟨pr, hprMem, hprR⟩ := hr
  obtain ⟨pp, hppMem, hppR⟩ := hpl
  have hprE : evaluateProvider dc urg pr ∈ evaluateAllProviders dc urg providers := by
    rw [evaluateAllProviders, mem_sortByKey]
    exact List.mem_map_of_mem _ hprMem
  have hppE : evaluateProvider dc urg pp ∈ evaluateAllProviders dc urg providers := by
    rw [evaluateAllProviders, mem_sortByKey]
    exact List.mem_map_of_mem _ hppMem
  have hprIs : (evaluateProvider dc urg pr).isRreh = true := hprR
  have hppIs : (evaluateProvider dc urg pp).isRreh = false := hppR
  have hrne : (evaluateAllProviders dc urg providers).filter
      (fun e => e.isRreh) ≠ [] := by
    intro hnil
    have : evaluateProvider dc urg pr ∈ (evaluateAllProviders dc urg providers).filter
        (fun e => e.isRreh) := List.mem_filter.mpr ⟨hprE, by simp [hprIs]⟩
    rw [hnil] at this
    cases this
  have hpne : (evaluateAllProviders dc urg providers).filter
      (fun e => !e.isRreh) ≠ [] := by
    intro hnil
    have : evaluateProvider dc urg pp ∈ (evaluateAllProviders dc urg providers).filter
        (fun e => !e.isRreh) := List.mem_filter.mpr ⟨hppE, by simp [hppIs]⟩
    rw [hnil] at this
    cases this
  obtain ⟨br, hbr⟩ := minByTotal_isSome _ hrne
  obtain ⟨bp, hbp⟩ := minByTotal_isSome _ hpne
  obtain ⟨hbrMem, hbrMin⟩ := minByTotal_spec _ _ hbr
  obtain ⟨hbpMem, hbpMin⟩ := minByTotal_spec _ _ hbp
  have hbrR : br.isRreh = true := by
    have := (List.mem_filter.mp hbrMem).2
    simpa using this
  have hbpR : bp.isRreh = false := by
    have := (List.mem_filter.mp hbpMem).2
    simpa using this
  refine ⟨br, bp, hbr, hbp, hbrR, hbpR, ?_, ?_, ?_⟩
  · intro e heMem heR
    exact hbrMin e (List.mem_filter.mpr ⟨heMem, by simp [heR]⟩)
  · intro e heMem heR
    exact hbpMin e (List.mem_filter.mpr ⟨heMem, by simp [heR]⟩)
  · have hne : ¬ (evaluateAllProviders dc urg providers).isEmpty = true := by
      intro hemp
      rw [List.isEmpty_iff] at hemp
      rw [hemp] at hprE
      cases hprE
    rw [selectBestProvider]
    simp only [hne, if_false, Bool.false_eq_true, hbr, hbp]
    simp only [getDynamicThreshold, URGENCY_CRITICAL, URGENCY_LOW,
      THRESHOLD_CRITICAL, THRESHOLD_LOW, THRESHOLD_HEALTHY, hdc, true_and]

/-- A concrete two-provider configuration for the C1 witness: an RREH with
provider cost 13/10 and 100 s queue, a platoon with provider cost 11/10;
direct cost 1, healthy urgency 2. -/
def witProviders : List Provider := [⟨13 / 10, true, 100⟩, ⟨11 / 10, false, 0⟩]

unseal Rat.mul Rat.add Rat.inv Rat.sub in
theorem C1_select_best_provider_witness :
    ∃ br bp,
      minByTotal ((evaluateAllProviders 1 2 witProviders).filter
        (fun e => e.isRreh)) = some br ∧
      minByTotal ((evaluateAllProviders 1 2 witProviders).filter
        (fun e => !e.isRreh)) = some bp ∧
      br.isRreh = true ∧ bp.isRreh = false ∧
      (∀ e ∈ evaluateAllProviders 1 2 witProviders, e.isRreh = true →
        br.totalCost ≤ e.totalCost) ∧
      (∀ e ∈ evaluateAllProviders 1 2 witProviders, e.isRreh = false →
        bp.totalCost ≤ e.totalCost) ∧
      selectBestProvider 1 2 witProviders =
        (if br.detourCost / 1 ≤
            (if (2 : ℚ) < 1 then 1 else if (2 : ℚ) < 6 / 5 then 1 / 2 else 1 / 5)
          then some br
          else if bp.totalCost < br.totalCost then some bp
          else if (2 : ℚ) < 1 then some bp
          else some br) :=
  C1_select_best_provider witProviders 1 2 (by norm_num)
    ⟨⟨13 / 10, true, 100⟩, by simp [witProviders], rfl⟩
    ⟨⟨11 / 10, false, 0⟩, by simp [witProviders], rfl⟩

end LayerC
